import Mathlib

/-!
Verification development for the `gh-import-issues` lambda (`src/main.rs`).

The handler ingests open issues from the GitHub repositories of a project
payload and persists them: it inserts one `projects` row, then for each
repository in the payload it resolves `(owner, name)` from the URL, inserts a
`repositories` row, fetches the first page (page size 100) of open issues,
drops pull requests, batch-inserts the surviving issues, and accumulates the
reported row counts into a plain-text total.

Shallow embedding choices:
* Rust `&str` operations (`trim_end_matches('/')`, `split('/')`) are modelled
  on `List Char`, mirroring Rust's semantics (splitting keeps empty pieces;
  splitting the empty string yields one empty piece).
* Database and network effects are modelled by an `Env` of oracle results
  (one entry per repository position) plus an explicit event log of the
  writes/fetches the handler performs; `none` in the oracle means the call
  fails.  The JSON decoding, connection acquisition and env-var lookup that
  precede the core pipeline are infrastructure outside the modelled core.
* `u64 as i64` is the wrapping cast, written out on `Nat`/`Int`.
-/

namespace GhImportIssues

/-! ## Rust string primitives -/

/-- Rust `str::split(sep)` on a character list: splitting keeps empty pieces
and the split of the empty string is `[[]]` (one empty piece). -/
def rustSplit : List Char → Char → List (List Char)
  | [], _ => [[]]
  | c :: rest, sep =>
    if c = sep then
      [] :: rustSplit rest sep
    else
      match rustSplit rest sep with
      | [] => [[c]]
      | p :: ps => (c :: p) :: ps

/-- Rust `str::trim_end_matches(c)`: remove every trailing occurrence of `c`. -/
def rustTrimEndMatches (s : List Char) (c : Char) : List Char :=
  (s.reverse.dropWhile (fun x => x = c)).reverse

/-! ## Data model (request payload, `src/main.rs` structs) -/

/-- `struct ProjectAttributes` (camelCase JSON keys are decoding concerns). -/
structure ProjectAttributes where
  purposes : List String
  stack_levels : List String
  technologies : List String
  types : List String
deriving DecidableEq

/-- `struct Repository { label, url }`. -/
structure Repository where
  label : String
  url : String
deriving DecidableEq

/-- `struct ProjectLinks { repository: Vec<Repository> }`. -/
structure ProjectLinks where
  repository : List Repository
deriving DecidableEq

/-- `struct Project { name, slug, attributes, links }`. -/
structure Project where
  name : String
  slug : String
  attributes : ProjectAttributes
  links : ProjectLinks
deriving DecidableEq

/-! ## Repo identity resolver (`RepoInfo::from_url`) -/

/-- `struct RepoInfo { owner, name }`. -/
structure RepoInfo where
  owner : String
  name : String
deriving DecidableEq

/-- The `parts` vector of `RepoInfo::from_url`:
`url.trim_end_matches('/').split('/').collect()`. -/
def urlParts (url : String) : List (List Char) :=
  rustSplit (rustTrimEndMatches url.toList '/') '/'

/-- `RepoInfo::from_url`: take the last two pieces of `parts` when there are
at least two, otherwise `None`. -/
def RepoInfo.from_url (url : String) : Option RepoInfo :=
  let parts := urlParts url
  if h : 2 ≤ parts.length then
    some { owner := String.mk (parts.get ⟨parts.length - 2, by omega⟩),
           name := String.mk (parts.get ⟨parts.length - 1, by omega⟩) }
  else
    none

/-! ## Upstream issue items (octocrab `models::issues::Issue`, the fields
`KudosIssue::from` reads) -/

/-- Timestamps (`DateTime<Utc>`) are opaque points in time; the handler only
copies them, so an integer stands in. -/
abbrev DateTimeUtc := Int

/-- A label object, reduced to the one field the handler reads. -/
structure Label where
  name : String
deriving DecidableEq

/-- The issue author (`user.login` is the only field read). -/
structure Author where
  login : String
deriving DecidableEq

/-- An issue-shaped item from GitHub's issues endpoint.  `number` is a `u64`;
`pull_request` is the "this is actually a pull request" marker, whose payload
the handler never inspects (only `is_none`), hence `Option Unit`. -/
structure Issue where
  number : Nat
  title : String
  html_url : String
  created_at : DateTimeUtc
  updated_at : DateTimeUtc
  user : Author
  labels : List Label
  pull_request : Option Unit
deriving DecidableEq

/-! ## Canonical record (`struct KudosIssue` and `From<Issue>`) -/

/-- Rust `u64 as i64`: the wrapping cast, identity below `2 ^ 63`. -/
def u64_as_i64 (n : Nat) : Int :=
  if n < 2 ^ 63 then (n : Int) else (n : Int) - 2 ^ 64

/-- `struct KudosIssue`. -/
structure KudosIssue where
  number : Int
  title : String
  html_url : String
  issue_created_at : DateTimeUtc
  issue_updated_at : DateTimeUtc
  user : String
  labels : List String
deriving DecidableEq

/-- `impl From<Issue> for KudosIssue`. -/
def KudosIssue.fromIssue (value : Issue) : KudosIssue :=
  { number := u64_as_i64 value.number
    title := value.title
    html_url := value.html_url
    issue_created_at := value.created_at
    issue_updated_at := value.updated_at
    user := value.user.login
    labels := value.labels.map (fun label => label.name) }

/-- The classifier/transformer step of the handler:
`page.items.into_iter().filter_map(|issue| issue.pull_request.is_none().then(|| KudosIssue::from(issue))).collect()`. -/
def filtered_issues (items : List Issue) : List KudosIssue :=
  items.filterMap (fun issue =>
    if issue.pull_request.isNone then some (KudosIssue.fromIssue issue) else none)

/-! ## SQL statements -/

/-- A bound SQL parameter (one `.bind(...)` call). -/
inductive SqlParam where
  | int (n : Int)
  | text (s : String)
  | textArray (l : List String)
  | timestamp (t : DateTimeUtc)
deriving DecidableEq

/-- A statement handed to the store: query text plus the bound parameters in
bind order. -/
structure Stmt where
  query : String
  binds : List SqlParam
deriving DecidableEq

/-- `Project::new_project_query` (the raw string literal, verbatim). -/
def new_project_query : String :=
  "\n        INSERT INTO projects (name, slug, categories, purposes, stack_levels, technologies)\n        VALUES ($1, $2, $3, $4, $5, $6)\n        RETURNING id;\n        "

/-- `Repository::insert_respository_query` (the raw string literal, verbatim). -/
def insert_respository_query : String :=
  "\n        INSERT INTO repositories (slug, project_id)\n        VALUES ($1, $2)\n        RETURNING id;\n        "

/-- The project insert with its six binds, in the handler's bind order. -/
def projectStmt (p : Project) : Stmt :=
  { query := new_project_query
    binds := [SqlParam.text p.name, SqlParam.text p.slug,
              SqlParam.textArray p.attributes.types,
              SqlParam.textArray p.attributes.purposes,
              SqlParam.textArray p.attributes.stack_levels,
              SqlParam.textArray p.attributes.technologies] }

/-- The repository insert with its two binds (`label`, `project_id`). -/
def repoStmt (label : String) (projectId : Int) : Stmt :=
  { query := insert_respository_query
    binds := [SqlParam.text label, SqlParam.int projectId] }

/-- The placeholder group for the `i`-th issue (0-based):
`format!("(${}, ${}, ${}, ${}, ${})", i*5+1, ..., i*5+5)`. -/
def placeholderGroup (i : Nat) : String :=
  "($" ++ toString (i * 5 + 1) ++ ", $" ++ toString (i * 5 + 2) ++ ", $" ++
    toString (i * 5 + 3) ++ ", $" ++ toString (i * 5 + 4) ++ ", $" ++
    toString (i * 5 + 5) ++ ")"

/-- The joined placeholder list for `n` issues (`.join(", ")`). -/
def placeholders (n : Nat) : String :=
  String.intercalate ", " ((List.range n).map placeholderGroup)

/-- The assembled multi-row insert text for `n` issues. -/
def issuesQueryString (n : Nat) : String :=
  "INSERT INTO issues (number, title, labels, repository_id, issue_created_at) VALUES "
    ++ placeholders n

/-- The five binds contributed by one issue in the bind loop:
`number, title, labels, repository_id, issue_created_at`. -/
def issueBindGroup (repoId : Int) (issue : KudosIssue) : List SqlParam :=
  [SqlParam.int issue.number, SqlParam.text issue.title,
   SqlParam.textArray issue.labels, SqlParam.int repoId,
   SqlParam.timestamp issue.issue_created_at]

/-- The per-issue bind groups, one per issue, in issue order. -/
def issueBindGroups (issues : List KudosIssue) (repoId : Int) : List (List SqlParam) :=
  issues.map (issueBindGroup repoId)

/-- The multi-row issue insert statement for a non-empty batch. -/
def issuesInsertStmt (issues : List KudosIssue) (repoId : Int) : Stmt :=
  { query := issuesQueryString issues.length
    binds := (issueBindGroups issues repoId).flatten }

/-- The numeric placeholder indices of the `i`-th group, in order of
appearance inside `placeholderGroup i`. -/
def placeholderGroupIndices (i : Nat) : List Nat :=
  [i * 5 + 1, i * 5 + 2, i * 5 + 3, i * 5 + 4, i * 5 + 5]

/-- Rendering of a list of placeholder indices as one parenthesised group. -/
def renderGroup (ks : List Nat) : String :=
  "(" ++ String.intercalate ", " (ks.map (fun k => "$" ++ toString k)) ++ ")"

/-! ## The fetch call -/

/-- `octocrab::params::State` (only `Open` is used by the handler). -/
inductive IssueState where
  | Open
  | Closed
  | All
deriving DecidableEq

/-- The parameters of one issues-list request.  `page = none` means no page
parameter was set, i.e. the tracker serves the first page. -/
structure FetchRequest where
  owner : String
  name : String
  state : IssueState
  perPage : Nat
  page : Option Nat
deriving DecidableEq

/-- The one request the handler builds per repository:
`.issues(owner, name).list().state(State::Open).per_page(100).send()` —
no `.page(...)` call, so the page parameter stays unset. -/
def handlerFetchRequest (info : RepoInfo) : FetchRequest :=
  { owner := info.owner, name := info.name,
    state := IssueState.Open, perPage := 100, page := none }

/-- Modelled from the spec: the upstream tracker's paged listing of open
issues serves, for a request, the `perPage`-sized slice of the full open-issue
list selected by the page parameter (first page when the parameter is unset).
The tracker itself is an external collaborator, not part of `src/`. -/
def servePage (full : List Issue) (req : FetchRequest) : List Issue :=
  (full.drop ((req.page.getD 0) * req.perPage)).take req.perPage

/-! ## Handler model -/

/-- The spec's error taxonomy (§7); each model step that can fail fails with
the matching class. -/
inductive ImportError where
  | identityResolution
  | upstreamApi
  | storeWrite
deriving DecidableEq

/-- The visible effects of a handler run, in execution order.  Write events
record the semantic content of the executed statement together with the value
the store reported back (`RETURNING id` / `rows_affected`). -/
inductive Event where
  | projectInsert (p : Project) (retId : Int)
  | repoInsert (label : String) (projectId : Int) (retId : Int)
  | fetch (req : FetchRequest)
  | issuesInsert (issues : List KudosIssue) (repoId : Int) (rowsAffected : Nat)
deriving DecidableEq

/-- The SQL statement a write event executed (`none` for the fetch). -/
def Event.stmt : Event → Option Stmt
  | Event.projectInsert p _ => some (projectStmt p)
  | Event.repoInsert label projectId _ => some (repoStmt label projectId)
  | Event.fetch _ => none
  | Event.issuesInsert issues repoId _ => some (issuesInsertStmt issues repoId)

/-- Oracle results for the external calls of one request.  Per-repository
oracles are indexed by the repository's position in the input list; `none`
means the call fails (connection/constraint error, upstream error). -/
structure Env where
  projectInsertResult : Option Int
  repoInsertResult : Nat → Option Int
  fetchResult : Nat → Option (List Issue)
  issueInsertResult : Nat → Option Nat

/-- The handler's per-repository body (one iteration of the `for repo in
project.links.repository` loop): resolve the URL, insert the repository row,
fetch the page, filter/transform, then — unless the filtered list is empty —
execute the one batch insert.  Returns the events performed (in order) and
either the count this repository contributes to the total or the error that
aborts the request. -/
def repoStep (env : Env) (projectId : Int) (i : Nat) (repo : Repository) :
    List Event × Except ImportError Nat :=
  match RepoInfo.from_url repo.url with
  | none => ([], Except.error ImportError.identityResolution)
  | some info =>
    match env.repoInsertResult i with
    | none => ([], Except.error ImportError.storeWrite)
    | some repoId =>
      let ev1 := Event.repoInsert repo.label projectId repoId
      match env.fetchResult i with
      | none => ([ev1], Except.error ImportError.upstreamApi)
      | some items =>
        let ev2 := Event.fetch (handlerFetchRequest info)
        let filtered := filtered_issues items
        if filtered.isEmpty then
          ([ev1, ev2], Except.ok 0)
        else
          match env.issueInsertResult i with
          | none => ([ev1, ev2], Except.error ImportError.storeWrite)
          | some count =>
            ([ev1, ev2, Event.issuesInsert filtered repoId count], Except.ok count)

/-- The handler's repository loop, starting at position `i`.  On the first
failing step the loop stops: events already performed are kept, repositories
after the failure are never touched. -/
def processRepos (env : Env) (projectId : Int) :
    List Repository → Nat → List Event × Except ImportError Nat
  | [], _ => ([], Except.ok 0)
  | repo :: rest, i =>
    match repoStep env projectId i repo with
    | (evs, Except.error e) => (evs, Except.error e)
    | (evs, Except.ok count) =>
      match processRepos env projectId rest (i + 1) with
      | (evs', Except.error e) => (evs ++ evs', Except.error e)
      | (evs', Except.ok restTotal) => (evs ++ evs', Except.ok (count + restTotal))

/-- The success response (`Response::builder()...`): status 200, plain text,
the total embedded in the fixed message template. -/
structure Response where
  status : Nat
  contentType : String
  body : String
deriving DecidableEq

/-- `format!("Total issues imported: {}", total)` wrapped in the 200 builder. -/
def successResponse (total : Nat) : Response :=
  { status := 200, contentType := "text/plain",
    body := "Total issues imported: " ++ toString total }

/-- `function_handler`, from the point where the decoded `Project` is in hand
(body decoding, env-var lookup and pool connection are infrastructure outside
the modelled core): insert the project row, run the repository loop, and on
full success answer with the accumulated total. -/
def function_handler (env : Env) (project : Project) :
    List Event × Except ImportError Response :=
  match env.projectInsertResult with
  | none => ([], Except.error ImportError.storeWrite)
  | some projectId =>
    match processRepos env projectId project.links.repository 0 with
    | (evs, Except.error e) =>
      (Event.projectInsert project projectId :: evs, Except.error e)
    | (evs, Except.ok total) =>
      (Event.projectInsert project projectId :: evs,
       Except.ok (successResponse total))

/-- The sum of the per-batch row counts the store reported during a run. -/
def sumCounts (log : List Event) : Nat :=
  (log.map (fun e =>
    match e with
    | Event.issuesInsert _ _ count => count
    | _ => 0)).sum

/-- Whether an event is a fetch. -/
def Event.isFetch : Event → Bool
  | Event.fetch _ => true
  | _ => false

/-! ## Sample fixtures for concrete instantiations -/

/-- A plain issue (no pull-request marker). -/
def sampleIssue : Issue :=
  { number := 7, title := "crash on empty input", html_url := "https://github.com/acme/widgets/issues/7",
    created_at := 100, updated_at := 200, user := { login := "alice" },
    labels := [{ name := "bug" }, { name := "p1" }], pull_request := none }

/-- An issue-shaped item that is actually a pull request. -/
def samplePull : Issue :=
  { number := 8, title := "fix crash", html_url := "https://github.com/acme/widgets/pull/8",
    created_at := 150, updated_at := 250, user := { login := "bob" },
    labels := [], pull_request := some () }

/-- A second plain issue. -/
def sampleIssue2 : Issue :=
  { number := 9, title := "typo in docs", html_url := "https://github.com/acme/widgets/issues/9",
    created_at := 300, updated_at := 300, user := { login := "carol" },
    labels := [{ name := "docs" }], pull_request := none }

/-- A sample request payload with two repositories. -/
def sampleProject : Project :=
  { name := "Acme", slug := "acme",
    attributes := { purposes := ["defi"], stack_levels := ["protocol"],
                    technologies := ["rust"], types := ["tooling"] },
    links := { repository := [{ label := "widgets", url := "https://github.com/acme/widgets/" },
                              { label := "gadgets", url := "https://github.com/acme/gadgets" }] } }

/-- An environment in which every call of `sampleProject`'s run succeeds:
repository 0 serves one plain issue and one pull request, repository 1 serves
two plain issues; the store echoes back the batch sizes. -/
def sampleEnv : Env :=
  { projectInsertResult := some 11
    repoInsertResult := fun i => if i = 0 then some 21 else if i = 1 then some 22 else none
    fetchResult := fun i =>
      if i = 0 then some [sampleIssue, samplePull]
      else if i = 1 then some [sampleIssue2, sampleIssue] else none
    issueInsertResult := fun i => if i = 0 then some 1 else if i = 1 then some 2 else none }

/-- Like `sampleEnv`, but the issue batch write of the second repository
fails. -/
def sampleEnvFail : Env :=
  { sampleEnv with issueInsertResult := fun i => if i = 0 then some 1 else none }

/-- The first repository of `sampleProject`. -/
def sampleRepo : Repository :=
  { label := "widgets", url := "https://github.com/acme/widgets/" }

/-- An environment whose fetches return only pull requests, so every
filtered batch is empty. -/
def sampleEnvOnlyPulls : Env :=
  { projectInsertResult := some 11
    repoInsertResult := fun _ => some 21
    fetchResult := fun _ => some [samplePull]
    issueInsertResult := fun _ => none }

/-- The second repository of `sampleProject`. -/
def sampleRepo2 : Repository :=
  { label := "gadgets", url := "https://github.com/acme/gadgets" }

/-- A third repository, used as the never-reached tail in failure scenarios. -/
def sampleRepo3 : Repository :=
  { label := "gizmos", url := "https://github.com/acme/gizmos" }

/-- `sampleProject` with an empty repository list. -/
def sampleProjectNoRepos : Project :=
  { sampleProject with links := { repository := [] } }

/-! ## Referential-integrity predicates over event logs -/

/-- Every issue-batch event in the list refers to a repository id that some
strictly earlier repo-insert event in the same list got back from the store. -/
def issuesLinked (l : List Event) : Prop :=
  ∀ (k : Nat) (hk : k < l.length) (issues : List KudosIssue) (rid : Int) (cnt : Nat),
    l.get ⟨k, hk⟩ = Event.issuesInsert issues rid cnt →
    ∃ (j : Nat) (hj : j < k) (lbl : String) (pj : Int),
      l.get ⟨j, hj.trans hk⟩ = Event.repoInsert lbl pj rid

/-- Every repo-insert event in the list carries the project id `pid`. -/
def reposLinked (pid : Int) (l : List Event) : Prop :=
  ∀ (lbl : String) (pj rid : Int), Event.repoInsert lbl pj rid ∈ l → pj = pid

/-! # Theorems -/

/-! ## Resolver lemmas -/

theorem rustSplit_ne_nil (s : List Char) (c : Char) : rustSplit s c ≠ [] := by
  cases s with
  | nil => simp [rustSplit]
  | cons x rest =>
    by_cases hx : x = c
    · simp [rustSplit, hx]
    · cases hrs : rustSplit rest c with
      | nil => simp [rustSplit, hx, hrs]
      | cons p ps => simp [rustSplit, hx, hrs]

theorem rustSplit_length (s : List Char) (c : Char) :
    (rustSplit s c).length = s.count c + 1 := by
  induction s with
  | nil => simp [rustSplit]
  | cons x rest ih =>
    by_cases hx : x = c
    · subst hx
      simp [rustSplit, List.count_cons, ih]
    · cases hrs : rustSplit rest c with
      | nil => exact absurd hrs (rustSplit_ne_nil rest c)
      | cons p ps =>
        rw [hrs] at ih
        simp [rustSplit, hx, hrs, List.count_cons]
        simp at ih
        omega

theorem exists_two_concat {α : Type} (l : List α) (h : 2 ≤ l.length) :
    ∃ pre a b, l = pre ++ [a, b] := by
  induction l using List.reverseRecOn with
  | nil => simp at h
  | append_singleton xs x _ =>
    induction xs using List.reverseRecOn with
    | nil => simp at h
    | append_singleton ys y _ =>
      exact ⟨ys, y, x, by simp⟩

theorem get_concat_two_left {α : Type} (pre : List α) (a b : α) :
    (pre ++ [a, b]).get ⟨pre.length, by simp⟩ = a := by
  induction pre with
  | nil => rfl
  | cons x xs ih => simpa using ih

theorem get_concat_two_right {α : Type} (pre : List α) (a b : α) :
    (pre ++ [a, b]).get ⟨pre.length + 1, by simp⟩ = b := by
  induction pre with
  | nil => rfl
  | cons x xs ih => simpa using ih

theorem from_url_concat (url : String) (pre : List (List Char)) (a b : List Char)
    (hp : urlParts url = pre ++ [a, b]) :
    RepoInfo.from_url url = some { owner := String.mk a, name := String.mk b } := by
  have hlen : (urlParts url).length = pre.length + 2 := by simp [hp]
  rw [RepoInfo.from_url]
  rw [dif_pos (by omega)]
  have h2 : (pre ++ [a, b]).length - 2 = pre.length := by simp
  have h1 : (pre ++ [a, b]).length - 1 = pre.length + 1 := by simp
  have ga := get_concat_two_left pre a b
  have gb := get_concat_two_right pre a b
  simp only [List.get_eq_getElem] at ga gb
  simp only [List.get_eq_getElem, hp, h2, h1, ga, gb]

/-- C1: for every URL whose (trailing-slash-stripped) split has at least two
non-empty segments, `RepoInfo::from_url` returns exactly the last two
segments of the split as `(owner, name)`; for every URL whose split has fewer
than two segments it deterministically returns `None`. -/
theorem C1_resolver_last_two_segments (url : String) :
    (2 ≤ ((urlParts url).filter (fun s => !s.isEmpty)).length →
      ∃ pre ow nm, urlParts url = pre ++ [ow, nm] ∧
        RepoInfo.from_url url = some { owner := String.mk ow, name := String.mk nm }) ∧
    ((urlParts url).length < 2 → RepoInfo.from_url url = none) := by
  constructor
  · intro h
    have hlen : 2 ≤ (urlParts url).length :=
      le_trans h (List.length_filter_le _ _)
    obtain ⟨pre, a, b, hp⟩ := exists_two_concat _ hlen
    exact ⟨pre, a, b, hp, from_url_concat url pre a b hp⟩
  · intro h
    rw [RepoInfo.from_url]
    rw [dif_neg (by omega)]

/-- Witness for C1: Scenario A (`https://github.com/acme/widgets/` resolves
to owner `acme`, name `widgets`) and Scenario B (`widgets` fails). -/
theorem C1_resolver_last_two_segments_witness :
    (∃ pre ow nm, urlParts "https://github.com/acme/widgets/" = pre ++ [ow, nm] ∧
      RepoInfo.from_url "https://github.com/acme/widgets/" =
        some { owner := String.mk ow, name := String.mk nm }) ∧
    RepoInfo.from_url "widgets" = none :=
  ⟨(C1_resolver_last_two_segments "https://github.com/acme/widgets/").1 (by decide),
   (C1_resolver_last_two_segments "widgets").2 (by decide)⟩

/-- C9 counterexample: the claim asserts that `"a//"` yields an owner (i.e.
resolution succeeds, taking the owner from a possibly empty segment), but
`trim_end_matches('/')` strips *both* trailing slashes, leaving `"a"`, whose
split has a single segment — resolution fails. -/
theorem C9_counterexample : RepoInfo.from_url "a//" = none := by decide

/-- C9 (amended): the resolver succeeds exactly when the URL, after stripping
all trailing `'/'` characters, still contains at least one `'/'` separator;
segments are not checked for emptiness, so `"/widgets"` succeeds and yields
an empty owner string, while `"a//"` fails (stripping removes both slashes)
and an input such as `"a//b"` yields an owner taken from an empty segment. -/
theorem C9_resolver_success_iff_separator (url : String) :
    ((RepoInfo.from_url url).isSome = true ↔
      '/' ∈ rustTrimEndMatches url.toList '/') ∧
    RepoInfo.from_url "/widgets" = some { owner := "", name := "widgets" } ∧
    RepoInfo.from_url "a//" = none ∧
    RepoInfo.from_url "a//b" = some { owner := "", name := "b" } := by
  refine ⟨?_, by decide, by decide, by decide⟩
  have hcount : (urlParts url).length = (rustTrimEndMatches url.toList '/').count '/' + 1 :=
    rustSplit_length _ _
  have hsome : (RepoInfo.from_url url).isSome = true ↔ 2 ≤ (urlParts url).length := by
    rw [RepoInfo.from_url]
    by_cases h : 2 ≤ (urlParts url).length
    · rw [dif_pos h]; simpa using h
    · rw [dif_neg h]; simpa using h
  rw [hsome, hcount, ← List.count_pos_iff]
  omega

/-! ## Classifier/Transformer (C2) -/

theorem filterMap_ite_eq_map_filter {α β : Type} (p : α → Bool) (f : α → β) (l : List α) :
    l.filterMap (fun a => if p a then some (f a) else none) = (l.filter p).map f := by
  induction l with
  | nil => rfl
  | cons x rest ih =>
    rw [List.filterMap_cons, List.filter_cons]
    cases hx : p x
    · simp [hx, ih]
    · simp [hx, ih]

theorem filtered_issues_eq_filter_map (items : List Issue) :
    filtered_issues items =
      (items.filter (fun issue => issue.pull_request.isNone)).map KudosIssue.fromIssue := by
  rw [filtered_issues]
  exact filterMap_ite_eq_map_filter (fun issue => issue.pull_request.isNone)
    KudosIssue.fromIssue items

/-- C2: the classifier retains exactly the items whose pull-request marker is
unpopulated, in fetch order, and maps each survivor to the canonical record
(number, title, URL, created-at, updated-at, author login, ordered
non-deduplicated label names; the `u64 → i64` number cast is the identity for
any number below `2 ^ 63`). -/
theorem C2_classifier_transformer (items : List Issue) :
    filtered_issues items =
      (items.filter (fun issue => issue.pull_request.isNone)).map KudosIssue.fromIssue ∧
    ∀ issue : Issue,
      (KudosIssue.fromIssue issue).title = issue.title ∧
      (KudosIssue.fromIssue issue).html_url = issue.html_url ∧
      (KudosIssue.fromIssue issue).issue_created_at = issue.created_at ∧
      (KudosIssue.fromIssue issue).issue_updated_at = issue.updated_at ∧
      (KudosIssue.fromIssue issue).user = issue.user.login ∧
      (KudosIssue.fromIssue issue).labels = issue.labels.map (fun l => l.name) ∧
      (issue.number < 2 ^ 63 → (KudosIssue.fromIssue issue).number = (issue.number : Int)) := by
  refine ⟨filtered_issues_eq_filter_map items, ?_⟩
  intro issue
  refine ⟨rfl, rfl, rfl, rfl, rfl, rfl, ?_⟩
  intro h
  show u64_as_i64 issue.number = (issue.number : Int)
  rw [u64_as_i64, if_pos h]

/-! ## Batch writer (C3) -/

theorem issueBindGroups_flatten_length (issues : List KudosIssue) (repoId : Int) :
    ((issueBindGroups issues repoId).flatten).length = 5 * issues.length := by
  induction issues with
  | nil => rfl
  | cons x rest ih =>
    simp [issueBindGroups, issueBindGroup] at ih ⊢
    omega

theorem range'_five (s : Nat) : List.range' s 5 = [s, s + 1, s + 2, s + 3, s + 4] := rfl

theorem placeholderGroupIndices_flatten (n : Nat) :
    ((List.range n).map placeholderGroupIndices).flatten = List.range' 1 (5 * n) := by
  induction n with
  | zero => rfl
  | succ m ih =>
    rw [List.range_succ, List.map_append, List.flatten_append, ih]
    have e2 : (List.map placeholderGroupIndices [m]).flatten
        = List.range' (1 + 1 * (5 * m)) 5 := by
      rw [show 1 + 1 * (5 * m) = 5 * m + 1 by omega, range'_five]
      simp only [List.map_cons, List.map_nil, List.flatten_cons, List.flatten_nil,
        List.append_nil, placeholderGroupIndices, List.cons.injEq, and_true]
      omega
    rw [e2, List.range'_append, show 5 + 5 * m = 5 * (m + 1) by omega]

theorem placeholderGroup_renders_indices (i : Nat) :
    placeholderGroup i = renderGroup (placeholderGroupIndices i) := by
  rw [placeholderGroup, renderGroup, placeholderGroupIndices]
  apply String.ext
  simp [String.intercalate, String.intercalate.go, String.data_append]

/-- C3: for `N > 0` canonical issues the batch writer builds exactly one
insert statement whose bind list is `N` consecutive groups of the five
parameters (number, title, labels, repository id, created-at), `5 * N` binds
in total, with the placeholder indices of the `N` groups running consecutively
from `$1` to `$(5 * N)`; a repository step whose filtered batch is empty
executes no issue-insert statement and contributes a count of `0`. -/
theorem C3_batch_writer_single_statement :
    (∀ (issues : List KudosIssue) (repoId : Int), issues ≠ [] →
      (issuesInsertStmt issues repoId).query = issuesQueryString issues.length ∧
      (issuesInsertStmt issues repoId).binds = (issueBindGroups issues repoId).flatten ∧
      issueBindGroups issues repoId = issues.map (fun issue =>
        [SqlParam.int issue.number, SqlParam.text issue.title,
         SqlParam.textArray issue.labels, SqlParam.int repoId,
         SqlParam.timestamp issue.issue_created_at]) ∧
      (issueBindGroups issues repoId).length = issues.length ∧
      (issuesInsertStmt issues repoId).binds.length = 5 * issues.length ∧
      ((List.range issues.length).map placeholderGroupIndices).flatten =
        List.range' 1 (5 * issues.length) ∧
      (∀ i : Nat, placeholderGroup i = renderGroup (placeholderGroupIndices i))) ∧
    (∀ (env : Env) (projectId : Int) (i : Nat) (repo : Repository) (info : RepoInfo)
        (repoId : Int) (items : List Issue),
      RepoInfo.from_url repo.url = some info →
      env.repoInsertResult i = some repoId →
      env.fetchResult i = some items →
      filtered_issues items = [] →
      repoStep env projectId i repo =
        ([Event.repoInsert repo.label projectId repoId,
          Event.fetch (handlerFetchRequest info)], Except.ok 0)) ∧
    (∀ (env : Env) (projectId : Int) (i : Nat) (repo : Repository) (info : RepoInfo)
        (repoId : Int) (items : List Issue) (count : Nat),
      RepoInfo.from_url repo.url = some info →
      env.repoInsertResult i = some repoId →
      env.fetchResult i = some items →
      filtered_issues items ≠ [] →
      env.issueInsertResult i = some count →
      repoStep env projectId i repo =
        ([Event.repoInsert repo.label projectId repoId,
          Event.fetch (handlerFetchRequest info),
          Event.issuesInsert (filtered_issues items) repoId count], Except.ok count) ∧
      (Event.issuesInsert (filtered_issues items) repoId count).stmt =
        some (issuesInsertStmt (filtered_issues items) repoId)) := by
  refine ⟨?_, ?_, ?_⟩
  · intro issues repoId _
    refine ⟨rfl, rfl, rfl, by simp [issueBindGroups], issueBindGroups_flatten_length issues repoId,
      placeholderGroupIndices_flatten issues.length, placeholderGroup_renders_indices⟩
  · intro env projectId i repo info repoId items hurl hrepo hfetch hfilt
    rw [repoStep, hurl]
    simp only [hrepo, hfetch, hfilt]
    rfl
  · intro env projectId i repo info repoId items count hurl hrepo hfetch hfilt hins
    rw [repoStep, hurl]
    simp only [hrepo, hfetch, hins]
    rw [if_neg (by simpa [List.isEmpty_iff] using hfilt)]
    exact ⟨rfl, rfl⟩

/-- Witness for C3: a one-issue batch for repository id `21`, and the
empty-batch step of an environment that fetches only pull requests. -/
theorem C3_batch_writer_single_statement_witness :
    (issuesInsertStmt [KudosIssue.fromIssue sampleIssue] 21).binds.length = 5 * 1 ∧
    repoStep sampleEnvOnlyPulls 11 0 sampleRepo =
      ([Event.repoInsert "widgets" 11 21,
        Event.fetch (handlerFetchRequest { owner := "acme", name := "widgets" })],
       Except.ok 0) :=
  ⟨(C3_batch_writer_single_statement.1 [KudosIssue.fromIssue sampleIssue] 21
      (by decide)).2.2.2.2.1,
   C3_batch_writer_single_statement.2.1 sampleEnvOnlyPulls 11 0 sampleRepo
      { owner := "acme", name := "widgets" } 21 [samplePull]
      (by decide) rfl rfl (by decide)⟩

/-- Witness for C2: Scenario D in miniature — a page with one plain issue and
one pull request keeps only the plain issue, and its number survives the
cast. -/
theorem C2_classifier_transformer_witness :
    filtered_issues [sampleIssue, samplePull] =
      (([sampleIssue, samplePull]).filter
        (fun issue => issue.pull_request.isNone)).map KudosIssue.fromIssue ∧
    (KudosIssue.fromIssue sampleIssue).number = ((7 : Nat) : Int) :=
  ⟨(C2_classifier_transformer [sampleIssue, samplePull]).1,
   ((C2_classifier_transformer [sampleIssue, samplePull]).2 sampleIssue).2.2.2.2.2.2
     (by decide)⟩

/-! ## Coordinator accounting (C4) -/

theorem sumCounts_append (a b : List Event) :
    sumCounts (a ++ b) = sumCounts a + sumCounts b := by
  simp [sumCounts]

theorem repoStep_ok_count (env : Env) (pid : Int) (i : Nat) (r : Repository)
    (evs : List Event) (c : Nat) (h : repoStep env pid i r = (evs, Except.ok c)) :
    c = sumCounts evs := by
  simp only [repoStep] at h
  split at h
  · simp at h
  · split at h
    · simp at h
    · split at h
      · simp at h
      · split at h
        · simp only [Prod.mk.injEq, Except.ok.injEq] at h
          obtain ⟨hevs, hc⟩ := h
          subst hevs
          simp [sumCounts, hc]
        · split at h
          · simp at h
          · simp only [Prod.mk.injEq, Except.ok.injEq] at h
            obtain ⟨hevs, hc⟩ := h
            subst hevs
            simp [sumCounts, hc]

theorem processRepos_ok_total (env : Env) (pid : Int) :
    ∀ (repos : List Repository) (i : Nat) (evs : List Event) (t : Nat),
      processRepos env pid repos i = (evs, Except.ok t) → t = sumCounts evs := by
  intro repos
  induction repos with
  | nil =>
    intro i evs t h
    rw [processRepos] at h
    simp only [Prod.mk.injEq] at h
    obtain ⟨hevs, ht⟩ := h
    simp only [Except.ok.injEq] at ht
    subst hevs
    simp [sumCounts, ht]
  | cons r rest ih =>
    intro i evs t h
    rw [processRepos] at h
    rcases hstep : repoStep env pid i r with ⟨sevs, sres⟩
    rw [hstep] at h
    cases sres with
    | error e => simp at h
    | ok c =>
      rcases hrest : processRepos env pid rest (i + 1) with ⟨revs, rres⟩
      rw [hrest] at h
      cases rres with
      | error e => simp at h
      | ok rt =>
        simp only [Prod.mk.injEq] at h
        obtain ⟨hevs, ht⟩ := h
        simp only [Except.ok.injEq] at ht
        subst hevs
        rw [sumCounts_append, ← repoStep_ok_count env pid i r sevs c hstep,
          ← ih (i + 1) revs rt hrest, ht]

/-- C4: whenever the handler answers successfully, the reported total is the
sum of the per-repository row counts the store reported during the run, and
the response is the plain-text 200 body embedding that total in the fixed
message template. -/
theorem C4_coordinator_total (env : Env) (project : Project) (log : List Event)
    (resp : Response) (h : function_handler env project = (log, Except.ok resp)) :
    resp = successResponse (sumCounts log) ∧
    resp.status = 200 ∧ resp.contentType = "text/plain" ∧
    resp.body = "Total issues imported: " ++ toString (sumCounts log) := by
  rw [function_handler] at h
  split at h
  · simp at h
  · rename_i pid heq
    split at h
    · simp at h
    · rename_i evs total heq2
      simp only [Prod.mk.injEq, Except.ok.injEq] at h
      obtain ⟨hlog, hresp⟩ := h
      have ht := processRepos_ok_total env pid project.links.repository 0 evs total heq2
      have hsum : sumCounts log = total := by
        rw [← hlog]
        simp [sumCounts] at ht ⊢
        omega
      rw [← hresp, hsum]
      exact ⟨rfl, rfl, rfl, rfl⟩

/-- Witness for C4: `sampleEnv` imports 1 + 2 issues across the two sample
repositories, and the handler answers with that total. -/
theorem C4_coordinator_total_witness :
    successResponse 3 =
      successResponse (sumCounts (function_handler sampleEnv sampleProject).1) ∧
    (successResponse 3).status = 200 ∧
    (successResponse 3).contentType = "text/plain" ∧
    (successResponse 3).body =
      "Total issues imported: " ++
        toString (sumCounts (function_handler sampleEnv sampleProject).1) :=
  C4_coordinator_total sampleEnv sampleProject
    (function_handler sampleEnv sampleProject).1 (successResponse 3) rfl

/-! ## Abort-on-first-failure, no rollback (C5) -/

/-- C5: (i) if the loop fails on a prefix of the repository list, appending
more repositories changes nothing — the same events stand and the same error
is returned, so the appended repositories are never attempted; (ii) in
particular, after a successful prefix and a failing repository, the whole
run fails with exactly the prefix's events plus the failing repository's
already-committed events — nothing is rolled back; (iii) on any failing run
whose project insert succeeded, the project row's event is still first in
the log. -/
theorem C5_abort_on_first_failure :
    (∀ (env : Env) (pid : Int) (l1 l2 : List Repository) (i : Nat) (evs : List Event)
        (e : ImportError),
      processRepos env pid l1 i = (evs, Except.error e) →
      processRepos env pid (l1 ++ l2) i = (evs, Except.error e)) ∧
    (∀ (env : Env) (pid : Int) (l1 : List Repository) (r : Repository)
        (l2 : List Repository) (i : Nat) (evs1 sevs : List Event) (t : Nat)
        (e : ImportError),
      processRepos env pid l1 i = (evs1, Except.ok t) →
      repoStep env pid (i + l1.length) r = (sevs, Except.error e) →
      processRepos env pid (l1 ++ r :: l2) i = (evs1 ++ sevs, Except.error e)) ∧
    (∀ (env : Env) (project : Project) (log : List Event) (e : ImportError) (pid : Int),
      function_handler env project = (log, Except.error e) →
      env.projectInsertResult = some pid →
      ∃ evs, log = Event.projectInsert project pid :: evs) := by
  refine ⟨?_, ?_, ?_⟩
  · intro env pid l1
    induction l1 with
    | nil =>
      intro l2 i evs e h
      rw [processRepos] at h
      simp at h
    | cons r rest ih =>
      intro l2 i evs e h
      rw [processRepos] at h
      rw [List.cons_append, processRepos]
      rcases hstep : repoStep env pid i r with ⟨sevs, sres⟩
      rw [hstep] at h
      cases sres with
      | error e' => exact h
      | ok c =>
        rcases hrest : processRepos env pid rest (i + 1) with ⟨revs, rres⟩
        rw [hrest] at h
        cases rres with
        | ok rt => simp at h
        | error e' =>
          simp only [Prod.mk.injEq, Except.error.injEq] at h
          obtain ⟨hevs, he⟩ := h
          rw [ih l2 (i + 1) revs e' hrest]
          simp [hevs, he]
  · intro env pid l1
    induction l1 with
    | nil =>
      intro r l2 i evs1 sevs t e h1 h2
      rw [processRepos] at h1
      simp only [Prod.mk.injEq] at h1
      obtain ⟨hevs, _⟩ := h1
      subst hevs
      rw [List.nil_append, processRepos]
      simp only [List.length_nil, Nat.add_zero] at h2
      rw [h2]
      simp
    | cons r0 rest ih =>
      intro r l2 i evs1 sevs t e h1 h2
      rw [processRepos] at h1
      rw [List.cons_append, processRepos]
      rcases hstep : repoStep env pid i r0 with ⟨s0, res0⟩
      rw [hstep] at h1
      cases res0 with
      | error e' => simp at h1
      | ok c0 =>
        rcases hrest : processRepos env pid rest (i + 1) with ⟨revs, rres⟩
        rw [hrest] at h1
        cases rres with
        | error e' => simp at h1
        | ok rt =>
          simp only [Prod.mk.injEq] at h1
          obtain ⟨hevs, _⟩ := h1
          have h2' : repoStep env pid ((i + 1) + rest.length) r = (sevs, Except.error e) := by
            rw [show (i + 1) + rest.length = i + (r0 :: rest).length by simp; omega]
            exact h2
          rw [ih r l2 (i + 1) revs sevs rt e hrest h2']
          simp [← hevs]
  · intro env project log e pid h hpi
    rw [function_handler] at h
    split at h
    · rename_i heq
      rw [hpi] at heq
      exact absurd heq (by simp)
    · rename_i pid' heq
      rw [hpi] at heq
      simp only [Option.some.injEq] at heq
      subst heq
      split at h
      · rename_i evs e' heq2
        simp only [Prod.mk.injEq] at h
        exact ⟨evs, h.1.symm⟩
      · simp at h

/-- Witness for C5: Scenario E with `sampleEnvFail` — the first repository
succeeds (1 issue written), the second repository's batch write fails, and
the third repository is never attempted: the run's events are exactly the
first repository's events plus the second's already-committed events. -/
theorem C5_abort_on_first_failure_witness :
    processRepos sampleEnvFail 11 ([sampleRepo] ++ sampleRepo2 :: [sampleRepo3]) 0 =
      ((processRepos sampleEnvFail 11 [sampleRepo] 0).1 ++
        (repoStep sampleEnvFail 11 (0 + [sampleRepo].length) sampleRepo2).1,
       Except.error ImportError.storeWrite) :=
  C5_abort_on_first_failure.2.1 sampleEnvFail 11 [sampleRepo] sampleRepo2 [sampleRepo3] 0
    (processRepos sampleEnvFail 11 [sampleRepo] 0).1
    (repoStep sampleEnvFail 11 (0 + [sampleRepo].length) sampleRepo2).1 1
    ImportError.storeWrite rfl rfl

/-! ## Referential integrity (C6) -/

theorem get_append_left_ev (a b : List Event) (k : Nat) (hka : k < a.length)
    (hk : k < (a ++ b).length) : (a ++ b).get ⟨k, hk⟩ = a.get ⟨k, hka⟩ := by
  simp [List.get_eq_getElem, List.getElem_append_left hka]

theorem get_append_right_ev (a b : List Event) (k : Nat) (hka : a.length ≤ k)
    (hk : k < (a ++ b).length) (hkb : k - a.length < b.length) :
    (a ++ b).get ⟨k, hk⟩ = b.get ⟨k - a.length, hkb⟩ := by
  simp only [List.get_eq_getElem]
  rw [List.getElem_append_right hka]

theorem issuesLinked_nil : issuesLinked [] := by
  intro k hk
  simp at hk

theorem issuesLinked_append (a b : List Event) (ha : issuesLinked a) (hb : issuesLinked b) :
    issuesLinked (a ++ b) := by
  intro k hk issues rid cnt hget
  by_cases hka : k < a.length
  · have hget' : a.get ⟨k, hka⟩ = Event.issuesInsert issues rid cnt := by
      rw [← get_append_left_ev a b k hka hk]
      exact hget
    obtain ⟨j, hj, lbl, pj, hjget⟩ := ha k hka issues rid cnt hget'
    refine ⟨j, hj, lbl, pj, ?_⟩
    rw [get_append_left_ev a b j (hj.trans hka) (hj.trans hk)]
    exact hjget
  · have hka' : a.length ≤ k := by omega
    have hlen : (a ++ b).length = a.length + b.length := by simp
    have hkb : k - a.length < b.length := by omega
    have hget' : b.get ⟨k - a.length, hkb⟩ = Event.issuesInsert issues rid cnt := by
      rw [← get_append_right_ev a b k hka' hk hkb]
      exact hget
    obtain ⟨j, hj, lbl, pj, hjget⟩ := hb (k - a.length) hkb issues rid cnt hget'
    refine ⟨a.length + j, by omega, lbl, pj, ?_⟩
    have hj2 : (a.length + j) - a.length < b.length := by omega
    rw [get_append_right_ev a b (a.length + j) (by omega) (by omega) hj2]
    have : (a.length + j) - a.length = j := by omega
    simp only [this]
    exact hjget

theorem issuesLinked_one (lbl : String) (pj rid : Int) :
    issuesLinked [Event.repoInsert lbl pj rid] := by
  intro k hk issues rid' c hget
  simp at hk
  subst hk
  simp at hget

theorem issuesLinked_two (lbl : String) (pj rid : Int) (req : FetchRequest) :
    issuesLinked [Event.repoInsert lbl pj rid, Event.fetch req] := by
  intro k hk issues rid' c hget
  simp at hk
  interval_cases k <;> simp [List.get] at hget

theorem issuesLinked_proj (p : Project) (retId : Int) :
    issuesLinked [Event.projectInsert p retId] := by
  intro k hk issues rid' c hget
  simp at hk
  subst hk
  simp at hget

theorem issuesLinked_block (lbl : String) (pj rid : Int) (req : FetchRequest)
    (issues : List KudosIssue) (cnt : Nat) :
    issuesLinked [Event.repoInsert lbl pj rid, Event.fetch req,
                  Event.issuesInsert issues rid cnt] := by
  intro k hk iss rid' c hget
  simp at hk
  interval_cases k
  · simp [List.get] at hget
  · simp [List.get] at hget
  · simp [List.get] at hget
    refine ⟨0, by omega, lbl, pj, ?_⟩
    simp [List.get, hget.2.1]

theorem repoStep_issuesLinked (env : Env) (pid : Int) (i : Nat) (r : Repository)
    (sevs : List Event) (res : Except ImportError Nat)
    (h : repoStep env pid i r = (sevs, res)) : issuesLinked sevs := by
  simp only [repoStep] at h
  split at h
  · simp only [Prod.mk.injEq] at h
    rw [← h.1]
    exact issuesLinked_nil
  · split at h
    · simp only [Prod.mk.injEq] at h
      rw [← h.1]
      exact issuesLinked_nil
    · split at h
      · simp only [Prod.mk.injEq] at h
        rw [← h.1]
        exact issuesLinked_one _ _ _
      · split at h
        · simp only [Prod.mk.injEq] at h
          rw [← h.1]
          exact issuesLinked_two _ _ _ _
        · split at h
          · simp only [Prod.mk.injEq] at h
            rw [← h.1]
            exact issuesLinked_two _ _ _ _
          · simp only [Prod.mk.injEq] at h
            rw [← h.1]
            exact issuesLinked_block _ _ _ _ _ _

theorem reposLinked_nil (pid : Int) : reposLinked pid [] := by
  intro lbl pj rid hm
  simp at hm

theorem reposLinked_append (pid : Int) (a b : List Event)
    (ha : reposLinked pid a) (hb : reposLinked pid b) : reposLinked pid (a ++ b) := by
  intro lbl pj rid hm
  rcases List.mem_append.1 hm with hma | hmb
  · exact ha lbl pj rid hma
  · exact hb lbl pj rid hmb

theorem repoStep_reposLinked (env : Env) (pid : Int) (i : Nat) (r : Repository)
    (sevs : List Event) (res : Except ImportError Nat)
    (h : repoStep env pid i r = (sevs, res)) : reposLinked pid sevs := by
  simp only [repoStep] at h
  split at h
  · simp only [Prod.mk.injEq] at h
    rw [← h.1]
    exact reposLinked_nil pid
  · split at h
    · simp only [Prod.mk.injEq] at h
      rw [← h.1]
      exact reposLinked_nil pid
    · split at h
      · simp only [Prod.mk.injEq] at h
        rw [← h.1]
        intro lbl pj rid hm
        simp at hm
        exact hm.2.1
      · split at h
        · simp only [Prod.mk.injEq] at h
          rw [← h.1]
          intro lbl pj rid hm
          simp at hm
          exact hm.2.1
        · split at h
          · simp only [Prod.mk.injEq] at h
            rw [← h.1]
            intro lbl pj rid hm
            simp at hm
            exact hm.2.1
          · simp only [Prod.mk.injEq] at h
            rw [← h.1]
            intro lbl pj rid hm
            simp at hm
            exact hm.2.1

theorem processRepos_linked (env : Env) (pid : Int) :
    ∀ (repos : List Repository) (i : Nat) (evs : List Event)
      (res : Except ImportError Nat),
      processRepos env pid repos i = (evs, res) →
      issuesLinked evs ∧ reposLinked pid evs := by
  intro repos
  induction repos with
  | nil =>
    intro i evs res h
    rw [processRepos] at h
    simp only [Prod.mk.injEq] at h
    rw [← h.1]
    exact ⟨issuesLinked_nil, reposLinked_nil pid⟩
  | cons r rest ih =>
    intro i evs res h
    rw [processRepos] at h
    rcases hstep : repoStep env pid i r with ⟨sevs, sres⟩
    rw [hstep] at h
    cases sres with
    | error e =>
      simp only [Prod.mk.injEq] at h
      rw [← h.1]
      exact ⟨repoStep_issuesLinked env pid i r sevs _ hstep,
        repoStep_reposLinked env pid i r sevs _ hstep⟩
    | ok c =>
      rcases hrest : processRepos env pid rest (i + 1) with ⟨revs, rres⟩
      rw [hrest] at h
      obtain ⟨hi, hr⟩ := ih (i + 1) revs rres hrest
      have hsl := repoStep_issuesLinked env pid i r sevs _ hstep
      have hsr := repoStep_reposLinked env pid i r sevs _ hstep
      cases rres with
      | error e =>
        simp only [Prod.mk.injEq] at h
        rw [← h.1]
        exact ⟨issuesLinked_append sevs revs hsl hi, reposLinked_append pid sevs revs hsr hr⟩
      | ok rt =>
        simp only [Prod.mk.injEq] at h
        rw [← h.1]
        exact ⟨issuesLinked_append sevs revs hsl hi, reposLinked_append pid sevs revs hsr hr⟩

/-- C6: in every run, every issue-batch row refers to the repository id the
store generated for a repository row written strictly earlier in the same
request, and every repository row carries the project id the store generated
for the single project row written at the start of the request. -/
theorem C6_referential_integrity (env : Env) (project : Project) (log : List Event)
    (res : Except ImportError Response) (h : function_handler env project = (log, res)) :
    issuesLinked log ∧
    (∀ (lbl : String) (pj rid : Int), Event.repoInsert lbl pj rid ∈ log →
      ∃ p : Project, log.get? 0 = some (Event.projectInsert p pj)) := by
  rw [function_handler] at h
  split at h
  · simp only [Prod.mk.injEq] at h
    rw [← h.1]
    refine ⟨issuesLinked_nil, ?_⟩
    intro lbl pj rid hm
    simp at hm
  · rename_i pid heq
    have main : ∀ (evs : List Event),
        processRepos env pid project.links.repository 0 =
          (evs, (processRepos env pid project.links.repository 0).2) →
        log = Event.projectInsert project pid :: evs →
        issuesLinked log ∧
        (∀ (lbl : String) (pj rid : Int), Event.repoInsert lbl pj rid ∈ log →
          ∃ p : Project, log.get? 0 = some (Event.projectInsert p pj)) := by
      intro evs hpr hlog
      obtain ⟨hi, hr⟩ := processRepos_linked env pid project.links.repository 0 evs _ hpr
      constructor
      · rw [hlog, ← List.singleton_append]
        exact issuesLinked_append _ evs (issuesLinked_proj project pid) hi
      · intro lbl pj rid hm
        rw [hlog] at hm
        rcases List.mem_cons.1 hm with habs | hmem
        · exact absurd habs (by simp)
        · have hpid : pj = pid := hr lbl pj rid hmem
          exact ⟨project, by rw [hlog, hpid]; rfl⟩
    split at h
    · rename_i evs e heq2
      simp only [Prod.mk.injEq] at h
      exact main evs (by rw [heq2]) h.1.symm
    · rename_i evs total heq2
      simp only [Prod.mk.injEq] at h
      exact main evs (by rw [heq2]) h.1.symm

/-- Witness for C6: the fully successful `sampleEnv` run satisfies both
links. -/
theorem C6_referential_integrity_witness :
    issuesLinked (function_handler sampleEnv sampleProject).1 ∧
    (∀ (lbl : String) (pj rid : Int),
      Event.repoInsert lbl pj rid ∈ (function_handler sampleEnv sampleProject).1 →
      ∃ p : Project, (function_handler sampleEnv sampleProject).1.get? 0 =
        some (Event.projectInsert p pj)) :=
  C6_referential_integrity sampleEnv sampleProject
    (function_handler sampleEnv sampleProject).1
    (function_handler sampleEnv sampleProject).2 rfl

/-! ## Sequential ordering (C7) -/

theorem processRepos_trace (env : Env) (pid : Int) :
    ∀ (repos : List Repository) (i : Nat) (evs : List Event)
      (res : Except ImportError Nat),
      processRepos env pid repos i = (evs, res) →
      ∃ n, n ≤ repos.length ∧
        evs = ((List.enumFrom i (repos.take n)).map
          (fun p => (repoStep env pid p.1 p.2).1)).flatten ∧
        (∀ t : Nat, res = Except.ok t → n = repos.length) := by
  intro repos
  induction repos with
  | nil =>
    intro i evs res h
    rw [processRepos] at h
    simp only [Prod.mk.injEq] at h
    exact ⟨0, Nat.le_refl _, by rw [← h.1]; rfl, fun t _ => rfl⟩
  | cons r rest ih =>
    intro i evs res h
    rw [processRepos] at h
    rcases hstep : repoStep env pid i r with ⟨sevs, sres⟩
    rw [hstep] at h
    cases sres with
    | error e =>
      simp only [Prod.mk.injEq] at h
      refine ⟨0 + 1, by simp, ?_, ?_⟩
      · rw [← h.1]
        simp [List.take_succ_cons, List.enumFrom, hstep]
      · intro t habs
        rw [← h.2] at habs
        simp at habs
    | ok c =>
      rcases hrest : processRepos env pid rest (i + 1) with ⟨revs, rres⟩
      rw [hrest] at h
      obtain ⟨n, hle, htr, hok⟩ := ih (i + 1) revs rres hrest
      cases rres with
      | error e =>
        simp only [Prod.mk.injEq] at h
        refine ⟨n + 1, by simp only [List.length_cons]; omega, ?_, ?_⟩
        · rw [← h.1, htr]
          simp [List.take_succ_cons, List.enumFrom, hstep]
        · intro t habs
          rw [← h.2] at habs
          simp at habs
      | ok rt =>
        simp only [Prod.mk.injEq] at h
        refine ⟨n + 1, by simp only [List.length_cons]; omega, ?_, ?_⟩
        · rw [← h.1, htr]
          simp [List.take_succ_cons, List.enumFrom, hstep]
        · intro t _
          simp only [List.length_cons, hok rt rfl]

/-- C7: repositories are processed strictly sequentially on every request —
any run's event log is the project insert followed by the per-repository
event blocks of a prefix of the input list, in exactly the input order (the
full list whenever the run succeeds); each successful block is one
repository insert, then one fetch, then at most one issue batch carrying all
surviving issues in a single event; and a failing repository step writes no
issue-batch event at all, so no partial per-issue ordering is ever
observable. -/
theorem C7_sequential_ordering (env : Env) (project : Project) (pid : Int)
    (log : List Event) (res : Except ImportError Response)
    (hpi : env.projectInsertResult = some pid)
    (h : function_handler env project = (log, res)) :
    (∃ n, n ≤ project.links.repository.length ∧
      log = Event.projectInsert project pid ::
        ((List.enumFrom 0 (project.links.repository.take n)).map
          (fun p => (repoStep env pid p.1 p.2).1)).flatten ∧
      (∀ resp : Response, res = Except.ok resp →
        n = project.links.repository.length)) ∧
    (∀ (i : Nat) (r : Repository) (evs : List Event) (c : Nat),
      repoStep env pid i r = (evs, Except.ok c) →
      ∃ (rid : Int) (req : FetchRequest) (tail : List Event),
        evs = Event.repoInsert r.label pid rid :: Event.fetch req :: tail ∧
        (tail = [] ∨ ∃ (f : List KudosIssue) (cnt : Nat),
          tail = [Event.issuesInsert f rid cnt])) ∧
    (∀ (i : Nat) (r : Repository) (evs : List Event) (e : ImportError),
      repoStep env pid i r = (evs, Except.error e) →
      ∀ (f : List KudosIssue) (rid : Int) (cnt : Nat),
        Event.issuesInsert f rid cnt ∉ evs) := by
  refine ⟨?_, ?_, ?_⟩
  · rw [function_handler] at h
    split at h
    · rename_i heq
      rw [hpi] at heq
      exact absurd heq (by simp)
    · rename_i pid' heq
      rw [hpi] at heq
      simp only [Option.some.injEq] at heq
      subst heq
      split at h
      · rename_i evs0 e0 heq2
        simp only [Prod.mk.injEq] at h
        obtain ⟨n, hle, htr, _⟩ :=
          processRepos_trace env pid project.links.repository 0 evs0 _ heq2
        refine ⟨n, hle, ?_, ?_⟩
        · rw [← h.1, htr]
        · intro resp habs
          rw [← h.2] at habs
          simp at habs
      · rename_i evs0 total heq2
        simp only [Prod.mk.injEq] at h
        obtain ⟨n, hle, htr, hn⟩ :=
          processRepos_trace env pid project.links.repository 0 evs0 _ heq2
        refine ⟨n, hle, ?_, ?_⟩
        · rw [← h.1, htr]
        · intro resp _
          exact hn total rfl
  · intro i r evs c hs
    simp only [repoStep] at hs
    split at hs
    · simp at hs
    · split at hs
      · simp at hs
      · split at hs
        · simp at hs
        · split at hs
          · simp only [Prod.mk.injEq, Except.ok.injEq] at hs
            exact ⟨_, _, [], hs.1.symm, Or.inl rfl⟩
          · split at hs
            · simp at hs
            · simp only [Prod.mk.injEq, Except.ok.injEq] at hs
              exact ⟨_, _, _, hs.1.symm, Or.inr ⟨_, _, rfl⟩⟩
  · intro i r evs e hs
    simp only [repoStep] at hs
    split at hs
    · simp only [Prod.mk.injEq] at hs
      rw [← hs.1]
      intro f rid cnt hm
      simp at hm
    · split at hs
      · simp only [Prod.mk.injEq] at hs
        rw [← hs.1]
        intro f rid cnt hm
        simp at hm
      · split at hs
        · simp only [Prod.mk.injEq] at hs
          rw [← hs.1]
          intro f rid cnt hm
          simp at hm
        · split at hs
          · simp at hs
          · split at hs
            · simp only [Prod.mk.injEq] at hs
              rw [← hs.1]
              intro f rid cnt hm
              simp at hm
            · simp at hs

/-- Witness for C7: the aborting `sampleEnvFail` run (second repository's
batch write fails) still has the ordered prefix-of-blocks log shape. -/
theorem C7_sequential_ordering_witness :
    (∃ n, n ≤ sampleProject.links.repository.length ∧
      (function_handler sampleEnvFail sampleProject).1 =
        Event.projectInsert sampleProject 11 ::
          ((List.enumFrom 0 (sampleProject.links.repository.take n)).map
            (fun p => (repoStep sampleEnvFail 11 p.1 p.2).1)).flatten ∧
      (∀ resp : Response,
        (function_handler sampleEnvFail sampleProject).2 = Except.ok resp →
        n = sampleProject.links.repository.length)) ∧
    (∀ (i : Nat) (r : Repository) (evs : List Event) (c : Nat),
      repoStep sampleEnvFail 11 i r = (evs, Except.ok c) →
      ∃ (rid : Int) (req : FetchRequest) (tail : List Event),
        evs = Event.repoInsert r.label 11 rid :: Event.fetch req :: tail ∧
        (tail = [] ∨ ∃ (f : List KudosIssue) (cnt : Nat),
          tail = [Event.issuesInsert f rid cnt])) ∧
    (∀ (i : Nat) (r : Repository) (evs : List Event) (e : ImportError),
      repoStep sampleEnvFail 11 i r = (evs, Except.error e) →
      ∀ (f : List KudosIssue) (rid : Int) (cnt : Nat),
        Event.issuesInsert f rid cnt ∉ evs) :=
  C7_sequential_ordering sampleEnvFail sampleProject 11
    (function_handler sampleEnvFail sampleProject).1
    (function_handler sampleEnvFail sampleProject).2 rfl rfl

/-! ## Fetch scope (C8) -/

theorem repoStep_fetch_req (env : Env) (pid : Int) (i : Nat) (r : Repository)
    (sevs : List Event) (res : Except ImportError Nat)
    (h : repoStep env pid i r = (sevs, res)) :
    ∀ req : FetchRequest, Event.fetch req ∈ sevs →
      req.perPage = 100 ∧ req.state = IssueState.Open ∧ req.page = none := by
  simp only [repoStep] at h
  split at h
  · simp only [Prod.mk.injEq] at h
    rw [← h.1]
    intro req hm
    simp at hm
  · split at h
    · simp only [Prod.mk.injEq] at h
      rw [← h.1]
      intro req hm
      simp at hm
    · split at h
      · simp only [Prod.mk.injEq] at h
        rw [← h.1]
        intro req hm
        simp at hm
      · split at h
        · simp only [Prod.mk.injEq] at h
          rw [← h.1]
          intro req hm
          simp at hm
          rw [hm, handlerFetchRequest]
          exact ⟨rfl, rfl, rfl⟩
        · split at h
          · simp only [Prod.mk.injEq] at h
            rw [← h.1]
            intro req hm
            simp at hm
            rw [hm, handlerFetchRequest]
            exact ⟨rfl, rfl, rfl⟩
          · simp only [Prod.mk.injEq] at h
            rw [← h.1]
            intro req hm
            simp at hm
            rw [hm, handlerFetchRequest]
            exact ⟨rfl, rfl, rfl⟩

theorem repoStep_fetch_count_le (env : Env) (pid : Int) (i : Nat) (r : Repository)
    (sevs : List Event) (res : Except ImportError Nat)
    (h : repoStep env pid i r = (sevs, res)) :
    sevs.countP Event.isFetch ≤ 1 := by
  simp only [repoStep] at h
  split at h
  · simp only [Prod.mk.injEq] at h
    rw [← h.1]
    simp [List.countP_nil]
  · split at h
    · simp only [Prod.mk.injEq] at h
      rw [← h.1]
      simp [List.countP_nil]
    · split at h
      · simp only [Prod.mk.injEq] at h
        rw [← h.1]
        simp [List.countP_cons, List.countP_nil, Event.isFetch]
      · split at h
        · simp only [Prod.mk.injEq] at h
          rw [← h.1]
          simp [List.countP_cons, List.countP_nil, Event.isFetch]
        · split at h
          · simp only [Prod.mk.injEq] at h
            rw [← h.1]
            simp [List.countP_cons, List.countP_nil, Event.isFetch]
          · simp only [Prod.mk.injEq] at h
            rw [← h.1]
            simp [List.countP_cons, List.countP_nil, Event.isFetch]

theorem repoStep_fetch_count_ok (env : Env) (pid : Int) (i : Nat) (r : Repository)
    (sevs : List Event) (c : Nat)
    (h : repoStep env pid i r = (sevs, Except.ok c)) :
    sevs.countP Event.isFetch = 1 := by
  simp only [repoStep] at h
  split at h
  · simp at h
  · split at h
    · simp at h
    · split at h
      · simp at h
      · split at h
        · simp only [Prod.mk.injEq] at h
          rw [← h.1]
          simp [List.countP_cons, List.countP_nil, Event.isFetch]
        · split at h
          · simp at h
          · simp only [Prod.mk.injEq] at h
            rw [← h.1]
            simp [List.countP_cons, List.countP_nil, Event.isFetch]

theorem processRepos_fetch_req (env : Env) (pid : Int) :
    ∀ (repos : List Repository) (i : Nat) (evs : List Event)
      (res : Except ImportError Nat),
      processRepos env pid repos i = (evs, res) →
      ∀ req : FetchRequest, Event.fetch req ∈ evs →
        req.perPage = 100 ∧ req.state = IssueState.Open ∧ req.page = none := by
  intro repos
  induction repos with
  | nil =>
    intro i evs res h
    rw [processRepos] at h
    simp only [Prod.mk.injEq] at h
    rw [← h.1]
    intro req hm
    simp at hm
  | cons r rest ih =>
    intro i evs res h
    rw [processRepos] at h
    rcases hstep : repoStep env pid i r with ⟨sevs, sres⟩
    rw [hstep] at h
    cases sres with
    | error e =>
      simp only [Prod.mk.injEq] at h
      rw [← h.1]
      exact repoStep_fetch_req env pid i r sevs _ hstep
    | ok c =>
      rcases hrest : processRepos env pid rest (i + 1) with ⟨revs, rres⟩
      rw [hrest] at h
      have hs := repoStep_fetch_req env pid i r sevs _ hstep
      have hr := ih (i + 1) revs rres hrest
      cases rres with
      | error e =>
        simp only [Prod.mk.injEq] at h
        rw [← h.1]
        intro req hm
        rcases List.mem_append.1 hm with hma | hmb
        · exact hs req hma
        · exact hr req hmb
      | ok rt =>
        simp only [Prod.mk.injEq] at h
        rw [← h.1]
        intro req hm
        rcases List.mem_append.1 hm with hma | hmb
        · exact hs req hma
        · exact hr req hmb

theorem processRepos_fetch_count_le (env : Env) (pid : Int) :
    ∀ (repos : List Repository) (i : Nat) (evs : List Event)
      (res : Except ImportError Nat),
      processRepos env pid repos i = (evs, res) →
      evs.countP Event.isFetch ≤ repos.length := by
  intro repos
  induction repos with
  | nil =>
    intro i evs res h
    rw [processRepos] at h
    simp only [Prod.mk.injEq] at h
    rw [← h.1]
    simp [List.countP_nil]
  | cons r rest ih =>
    intro i evs res h
    rw [processRepos] at h
    rcases hstep : repoStep env pid i r with ⟨sevs, sres⟩
    rw [hstep] at h
    cases sres with
    | error e =>
      simp only [Prod.mk.injEq] at h
      rw [← h.1]
      have := repoStep_fetch_count_le env pid i r sevs _ hstep
      simp only [List.length_cons]
      omega
    | ok c =>
      rcases hrest : processRepos env pid rest (i + 1) with ⟨revs, rres⟩
      rw [hrest] at h
      have h1 := repoStep_fetch_count_le env pid i r sevs _ hstep
      have h2 := ih (i + 1) revs rres hrest
      cases rres with
      | error e =>
        simp only [Prod.mk.injEq] at h
        rw [← h.1, List.countP_append]
        simp only [List.length_cons]
        omega
      | ok rt =>
        simp only [Prod.mk.injEq] at h
        rw [← h.1, List.countP_append]
        simp only [List.length_cons]
        omega

theorem processRepos_fetch_count_ok (env : Env) (pid : Int) :
    ∀ (repos : List Repository) (i : Nat) (evs : List Event) (t : Nat),
      processRepos env pid repos i = (evs, Except.ok t) →
      evs.countP Event.isFetch = repos.length := by
  intro repos
  induction repos with
  | nil =>
    intro i evs t h
    rw [processRepos] at h
    simp only [Prod.mk.injEq] at h
    rw [← h.1]
    simp [List.countP_nil]
  | cons r rest ih =>
    intro i evs t h
    rw [processRepos] at h
    rcases hstep : repoStep env pid i r with ⟨sevs, sres⟩
    rw [hstep] at h
    cases sres with
    | error e => simp at h
    | ok c =>
      rcases hrest : processRepos env pid rest (i + 1) with ⟨revs, rres⟩
      rw [hrest] at h
      cases rres with
      | error e => simp at h
      | ok rt =>
        simp only [Prod.mk.injEq] at h
        rw [← h.1, List.countP_append]
        rw [repoStep_fetch_count_ok env pid i r sevs c hstep,
          ih (i + 1) revs rt hrest]
        simp only [List.length_cons]
        omega

/-- C8: every fetch the handler performs asks for open issues with page size
100 and no page parameter (i.e. the first page); there is at most one fetch
per repository (exactly one per repository on a successful run), and the
spec-modelled upstream pager serves at most the first 100 open issues for
such a request — everything beyond the first page is never requested. -/
theorem C8_fetch_first_page_only (env : Env) (project : Project) (log : List Event)
    (res : Except ImportError Response) (h : function_handler env project = (log, res)) :
    (∀ req : FetchRequest, Event.fetch req ∈ log →
      req.perPage = 100 ∧ req.state = IssueState.Open ∧ req.page = none) ∧
    log.countP Event.isFetch ≤ project.links.repository.length ∧
    (∀ resp : Response, res = Except.ok resp →
      log.countP Event.isFetch = project.links.repository.length) ∧
    (∀ (full : List Issue) (info : RepoInfo),
      servePage full (handlerFetchRequest info) = full.take 100 ∧
      (servePage full (handlerFetchRequest info)).length ≤ 100) := by
  have serve : ∀ (full : List Issue) (info : RepoInfo),
      servePage full (handlerFetchRequest info) = full.take 100 ∧
      (servePage full (handlerFetchRequest info)).length ≤ 100 := by
    intro full info
    constructor
    · simp [servePage, handlerFetchRequest]
    · simp [servePage, handlerFetchRequest]
  rw [function_handler] at h
  split at h
  · simp only [Prod.mk.injEq] at h
    rw [← h.1]
    refine ⟨?_, ?_, ?_, serve⟩
    · intro req hm
      simp at hm
    · simp [List.countP_nil]
    · intro resp habs
      rw [← h.2] at habs
      simp at habs
  · rename_i pid heq
    split at h
    · rename_i evs e heq2
      simp only [Prod.mk.injEq] at h
      rw [← h.1]
      refine ⟨?_, ?_, ?_, serve⟩
      · intro req hm
        rcases List.mem_cons.1 hm with habs | hmem
        · exact absurd habs (by simp)
        · exact processRepos_fetch_req env pid project.links.repository 0 evs _ heq2 req hmem
      · rw [List.countP_cons]
        have := processRepos_fetch_count_le env pid project.links.repository 0 evs _ heq2
        simp [Event.isFetch]
        omega
      · intro resp habs
        rw [← h.2] at habs
        simp at habs
    · rename_i evs total heq2
      simp only [Prod.mk.injEq] at h
      rw [← h.1]
      refine ⟨?_, ?_, ?_, serve⟩
      · intro req hm
        rcases List.mem_cons.1 hm with habs | hmem
        · exact absurd habs (by simp)
        · exact processRepos_fetch_req env pid project.links.repository 0 evs _ heq2 req hmem
      · rw [List.countP_cons]
        have := processRepos_fetch_count_le env pid project.links.repository 0 evs _ heq2
        simp [Event.isFetch]
        omega
      · intro resp _
        rw [List.countP_cons]
        have := processRepos_fetch_count_ok env pid project.links.repository 0 evs total heq2
        simp [Event.isFetch]
        omega

/-- Witness for C8: the `sampleEnv` run fetches exactly twice (once per
repository), always first-page/size-100/open. -/
theorem C8_fetch_first_page_only_witness :
    (∀ req : FetchRequest,
      Event.fetch req ∈ (function_handler sampleEnv sampleProject).1 →
      req.perPage = 100 ∧ req.state = IssueState.Open ∧ req.page = none) ∧
    (function_handler sampleEnv sampleProject).1.countP Event.isFetch ≤
      sampleProject.links.repository.length ∧
    (∀ resp : Response, (function_handler sampleEnv sampleProject).2 = Except.ok resp →
      (function_handler sampleEnv sampleProject).1.countP Event.isFetch =
        sampleProject.links.repository.length) ∧
    (∀ (full : List Issue) (info : RepoInfo),
      servePage full (handlerFetchRequest info) = full.take 100 ∧
      (servePage full (handlerFetchRequest info)).length ≤ 100) :=
  C8_fetch_first_page_only sampleEnv sampleProject
    (function_handler sampleEnv sampleProject).1
    (function_handler sampleEnv sampleProject).2 rfl

/-! ## Empty repository list (C10) -/

/-- C10: a request whose repository list is empty still writes the project
row, performs no repository or issue writes, and succeeds with a reported
total of `0` embedded in the plain-text body. -/
theorem C10_empty_repo_list (env : Env) (project : Project) (pid : Int)
    (hrepos : project.links.repository = [])
    (hpi : env.projectInsertResult = some pid) :
    function_handler env project =
      ([Event.projectInsert project pid], Except.ok (successResponse 0)) ∧
    (successResponse 0).body = "Total issues imported: 0" := by
  rw [function_handler, hpi, hrepos]
  exact ⟨rfl, rfl⟩

/-- Witness for C10: the sample payload with its repository list emptied. -/
theorem C10_empty_repo_list_witness :
    function_handler sampleEnv sampleProjectNoRepos =
      ([Event.projectInsert sampleProjectNoRepos 11], Except.ok (successResponse 0)) ∧
    (successResponse 0).body = "Total issues imported: 0" :=
  C10_empty_repo_list sampleEnv sampleProjectNoRepos 11 rfl rfl

end GhImportIssues
